import Mathlib

/-!
Verification development for the devLOGS site core: the custom XML feed
parser (`parser.js`) and the content tag processor of the devlogs renderer
(`index.js`): full censor, PCensor and glitch transforms.

Modelling conventions (shallow embedding):
* A parsed XML document is a rose tree of elements.  `DOMParser.parseFromString`
  is external browser machinery; both execution paths of the source feed the
  same string to it, so both paths here receive the same parsed tree.  A
  document that failed to parse is represented by a tree containing a
  `parsererror` element, exactly what `DOMParser` produces.
* `textContent` / `innerHTML` of an element are modelled by the `text` field
  stored on the node.
* JS strings are modelled by `String` / `List Char` (one `Char` per JS
  character position).
* `Math.random()` is modelled by an injected stream `ℕ → ℚ` of draws in
  `[0,1)`, consumed left to right; JS number arithmetic on the small
  decimal constants involved is modelled exactly over `ℚ`, except for
  `Math.floor(word.length * 0.3)` which is modelled bit-exactly
  (see `jsMul03Floor`).
* Worker availability (`typeof DOMParser === 'undefined'` inside the worker)
  is an environment fact, modelled by a boolean parameter.
-/

/-- One XML element: tag name, own text content, and child elements. -/
inductive XMLNode : Type where
  | node (tag : String) (text : String) (children : List XMLNode)

def XMLNode.tag : XMLNode → String
  | .node t _ _ => t

def XMLNode.text : XMLNode → String
  | .node _ s _ => s

def XMLNode.children : XMLNode → List XMLNode
  | .node _ _ cs => cs

mutual

/-- All elements of the subtree rooted at a node, in document (pre-)order. -/
def subnodes : XMLNode → List XMLNode
  | XMLNode.node t s cs => XMLNode.node t s cs :: subnodesList cs

/-- All elements of the forest, in document (pre-)order. -/
def subnodesList : List XMLNode → List XMLNode
  | [] => []
  | n :: ns => subnodes n ++ subnodesList ns

end

/-- `querySelectorAll(tag)` on the whole document (`roots` = root forest):
all elements with the given tag, in document order. -/
def docAll (roots : List XMLNode) (t : String) : List XMLNode :=
  (subnodesList roots).filter (fun n => n.tag == t)

/-- `document.querySelector(tag)`: first match in document order. -/
def docQS (roots : List XMLNode) (t : String) : Option XMLNode :=
  (docAll roots t).head?

/-- `el.querySelectorAll(tag)`: all descendants (excluding `el` itself)
with the given tag, in document order. -/
def elemAll (el : XMLNode) (t : String) : List XMLNode :=
  (subnodesList el.children).filter (fun n => n.tag == t)

/-- `el.querySelector(tag)`: first matching descendant. -/
def elemQS (el : XMLNode) (t : String) : Option XMLNode :=
  (elemAll el t).head?

mutual

/-- Document-order list of elements matching the CSS selector
`feed > channel`: every `channel` element whose parent is a `feed`
element.  The flag records whether the parent of the current node is a
`feed` element. -/
def feedChildChannels (parentIsFeed : Bool) : XMLNode → List XMLNode
  | XMLNode.node t s cs =>
    (if parentIsFeed ∧ t = "channel" then [XMLNode.node t s cs] else []) ++
      feedChildChannelsList (t == "feed") cs

def feedChildChannelsList (parentIsFeed : Bool) : List XMLNode → List XMLNode
  | [] => []
  | n :: ns => feedChildChannels parentIsFeed n ++ feedChildChannelsList parentIsFeed ns

end

/-- `doc.querySelector('feed > channel')`. -/
def selFeedChannel (roots : List XMLNode) : Option XMLNode :=
  (feedChildChannelsList false roots).head?

/-- The `pubDate` value of a PostRecord: a JS object whose `date` and
`timezone` keys may each be present (`some`) or missing (`none`).
The source's empty object `{}` is `⟨none, none⟩`. -/
structure PubDate where
  date : Option String := none
  timezone : Option String := none

/-- One parsed feed item (`parser.js` lines 44-61 / 100-117).  `pubDate` is
`none` when the record has no `pubDate` key at all, `some pd` when the key
is present with object `pd`. -/
structure PostRecord where
  title : String
  id : String
  type : String
  heading : String
  description : String
  content : String
  pubDate : Option PubDate

/-- `Array.from(items).map(parseItem)` under JS exception semantics: the
first throwing element aborts the whole map. -/
def mapParse (f : XMLNode → Except String PostRecord) :
    List XMLNode → Except String (List PostRecord)
  | [] => Except.ok []
  | x :: xs =>
    match f x with
    | Except.error m => Except.error m
    | Except.ok r =>
      match mapParse f xs with
      | Except.error m => Except.error m
      | Except.ok rs => Except.ok (r :: rs)

/-- `parseItem` as defined inside the worker source string
(`parser.js` lines 44-61). -/
def wParseItem (item : XMLNode) : Except String PostRecord :=
  match elemQS item "title", elemQS item "id" with
  | some t, some i =>
    Except.ok
      { title := t.text
      , id := i.text
      , type := ((elemQS item "type").map XMLNode.text).getD ""
      , heading := ((elemQS item "heading").map XMLNode.text).getD ""
      , description := ((elemQS item "description").map XMLNode.text).getD ""
      , content := ((elemQS item "content").map XMLNode.text).getD ""
      , pubDate :=
          match elemQS item "pubDate" with
          | some pd =>
            some { date := some (((elemQS pd "date").map XMLNode.text).getD "")
                 , timezone := some (((elemQS pd "timezone").map XMLNode.text).getD "") }
          | none => some {} }
  | _, _ => Except.error "Missing required title/id in <item>"

/-- The per-item arrow function inside `parseXMLMainThread`
(`parser.js` lines 100-117); textually the same logic as the worker's
`parseItem`. -/
def mParseItem (item : XMLNode) : Except String PostRecord :=
  match elemQS item "title", elemQS item "id" with
  | some t, some i =>
    Except.ok
      { title := t.text
      , id := i.text
      , type := ((elemQS item "type").map XMLNode.text).getD ""
      , heading := ((elemQS item "heading").map XMLNode.text).getD ""
      , description := ((elemQS item "description").map XMLNode.text).getD ""
      , content := ((elemQS item "content").map XMLNode.text).getD ""
      , pubDate :=
          match elemQS item "pubDate" with
          | some pd =>
            some { date := some (((elemQS pd "date").map XMLNode.text).getD "")
                 , timezone := some (((elemQS pd "timezone").map XMLNode.text).getD "") }
          | none => some {} }
  | _, _ => Except.error "Missing required title/id in <item>"

/-- The record either item-parser produces when `title` and `id` are
present (pure view of the extraction, used to state theorems). -/
def recordOf (item : XMLNode) : PostRecord :=
  { title := ((elemQS item "title").map XMLNode.text).getD ""
  , id := ((elemQS item "id").map XMLNode.text).getD ""
  , type := ((elemQS item "type").map XMLNode.text).getD ""
  , heading := ((elemQS item "heading").map XMLNode.text).getD ""
  , description := ((elemQS item "description").map XMLNode.text).getD ""
  , content := ((elemQS item "content").map XMLNode.text).getD ""
  , pubDate :=
      match elemQS item "pubDate" with
      | some pd =>
        some { date := some (((elemQS pd "date").map XMLNode.text).getD "")
             , timezone := some (((elemQS pd "timezone").map XMLNode.text).getD "") }
      | none => some {} }

/-- `validateXMLStructure` (`parser.js` lines 36-42). -/
def validateXMLStructure (roots : List XMLNode) : List String :=
  (if (docQS roots "feed").isNone then ["Missing <feed>"] else []) ++
    (if (docQS roots "channel").isNone then ["Missing <channel>"] else []) ++
      (if (docAll roots "item").length = 0 then ["No <item> elements"] else [])

/-- Body of the worker's `onmessage` handler (`parser.js` lines 13-34),
given the parsed document. -/
def parseXMLWorkerBody (roots : List XMLNode) : Except String (List PostRecord) :=
  let errs := validateXMLStructure roots
  if 0 < errs.length then
    Except.error ("Invalid XML: " ++ String.intercalate ", " errs)
  else
    match selFeedChannel roots with
    | none => Except.error "No channel element found"
    | some channel => mapParse wParseItem (elemAll channel "item")

/-- `parseXMLMainThread` (`parser.js` lines 87-118), given the parsed
document. -/
def parseXMLMainThread (roots : List XMLNode) : Except String (List PostRecord) :=
  match docQS roots "parsererror" with
  | some pe => Except.error ("XML parse error: " ++ pe.text)
  | none =>
    match selFeedChannel roots with
    | none => Except.error "No <feed><channel> found"
    | some channel =>
      let items := elemAll channel "item"
      if items.length = 0 then Except.error "No <item> elements found"
      else mapParse mParseItem items

/-- Outcome of `parseXMLWorker` (`parser.js` lines 10-83): when the worker
has a `DOMParser` the promise settles with the worker body's outcome;
otherwise the worker rejects with its environment-detection error. -/
def workerResult (workerHasDOMParser : Bool) (roots : List XMLNode) :
    Except String (List PostRecord) :=
  if workerHasDOMParser then parseXMLWorkerBody roots
  else Except.error "DOMParser not available in worker"

/-- The value shape `{success, data | error}` returned by the public API. -/
inductive LoadResult : Type where
  | ok (data : List PostRecord)
  | err (msg : String)

def LoadResult.success : LoadResult → Bool
  | .ok _ => true
  | .err _ => false

/-- `parseXML` (`parser.js` lines 122-136): try the worker, on any worker
failure retry once on the main thread, return a success/error value. -/
def parseXML (workerHasDOMParser : Bool) (roots : List XMLNode) : LoadResult :=
  match workerResult workerHasDOMParser roots with
  | Except.ok d => LoadResult.ok d
  | Except.error _ =>
    match parseXMLMainThread roots with
    | Except.ok d => LoadResult.ok d
    | Except.error m => LoadResult.err m

/-- Environment outcome of `fetch(url)` + `response.text()` inside
`loadXML`: network failure, non-ok HTTP status, or a body (already put
through `DOMParser`, per the modelling convention). -/
inductive FetchOutcome : Type where
  | netError (msg : String)
  | httpError (statusText : String)
  | body (doc : List XMLNode)

/-- `loadXML` (`parser.js` lines 138-147). -/
def loadXML (workerHasDOMParser : Bool) (f : FetchOutcome) : LoadResult :=
  match f with
  | .netError m => LoadResult.err m
  | .httpError st => LoadResult.err ("Failed to load XML: " ++ st)
  | .body doc => parseXML workerHasDOMParser doc

/-! ### Content tag processor (`index.js`, `processContent` and helpers)

The three custom-tag substitutions are regex replaces whose callbacks
receive the captured groups; the definitions below embed those callbacks.
The surrounding regex scan and the final sanitize-by-reparse pass
(`tmp.innerHTML = content; return tmp.innerHTML`) are browser machinery
outside the model. -/

/-- The block glyph U+2588 used by the full censor. -/
def blockChar : Char := '█'

/-- `'█'.repeat(p1.length)` — the block run of the censor replacement. -/
def censorBlocks (p1 : List Char) : List Char :=
  List.replicate p1.length blockChar

def censorOpen : List Char := "<span class=\"censor-text\">".toList

def censorClose : List Char := "</span>".toList

/-- The `<censor>` replacement callback (`index.js` lines 788-790):
`<span class="censor-text">` + one block glyph per character + `</span>`. -/
def censorReplacement (p1 : List Char) : List Char :=
  censorOpen ++ censorBlocks p1 ++ censorClose

/-- UTF-8 byte length of the modelled JS string (used to distinguish
"per character" from "per byte"). -/
def utf8Len (l : List Char) : ℕ :=
  l.foldl (fun a c => a + c.utf8Size) 0

/-- JS `str.split(' ')`: split at every single space; consecutive spaces
produce empty-string words. -/
def splitSp : List Char → List (List Char)
  | [] => [[]]
  | c :: cs =>
    if c = ' ' then [] :: splitSp cs
    else
      match splitSp cs with
      | [] => [[c]]
      | w :: ws => (c :: w) :: ws

/-- JS `arr.join(' ')`. -/
def joinSp : List (List Char) → List Char
  | [] => []
  | [w] => w
  | w :: ws => w ++ ' ' :: joinSp ws

/-- Boolean space mask of a string: `true` exactly at space positions. -/
def spaceMask (l : List Char) : List Bool :=
  l.map (fun c => c == ' ')

/-- The exact rational value of the IEEE-754 double nearest to `0.3`
(the literal `0.3` in the source). -/
def q03 : ℚ := (5404319552844595 : ℚ) / (18014398509481984 : ℚ)

/-- Bit-exact model of JS `Math.floor(n * 0.3)` for a natural `n`:
the product `n × 0.3` is rounded to the nearest double (ties to even)
before flooring.  `n * 5404319552844595 / 2^54` is rounded to 53
significant bits. -/
def jsMul03Floor (n : ℕ) : ℕ :=
  let N := n * 5404319552844595
  if N = 0 then 0
  else
    let b := N.log2 + 1
    let k := b - 53
    let q := N / 2 ^ k
    let r := N % 2 ^ k
    let q2 := if 2 ^ k < 2 * r ∨ (2 * r = 2 ^ k ∧ q % 2 = 1) then q + 1 else q
    q2 * 2 ^ k / 2 ^ 54

/-- PCensor per-word policy, earlier revision (`index.js` variant a,
lines 371-377): words of length ≤ 3 unchanged, otherwise reveal the
first `Math.floor(word.length * 0.3)` characters and mask the rest. -/
def pcenWordA (w : List Char) : List Char :=
  if w.length ≤ 3 then w
  else
    let v := jsMul03Floor w.length
    w.take v ++ List.replicate (w.length - v) '*'

/-- PCensor per-word policy, current revision (`index.js` variant b,
lines 793-803): words of length ≤ 2 unchanged, length-3 words keep their
first and last character, longer words keep the first and the
second-to-last character; every other character becomes `*`. -/
def pcenWordB (w : List Char) : List Char :=
  if w.length ≤ 2 then w
  else if w.length = 3 then w.take 1 ++ '*' :: w.drop 2
  else
    let secondToLast := w.length - 2
    w.enum.map (fun p => if p.1 = 0 ∨ p.1 = secondToLast then p.2 else '*')

/-- The `<PCensor>` replacement callback, variant a:
`p1.split(' ').map(word => …).join(' ')`. -/
def pcensorA (p1 : List Char) : List Char :=
  joinSp ((splitSp p1).map pcenWordA)

/-- The `<PCensor>` replacement callback, variant b (current source). -/
def pcensorB (p1 : List Char) : List Char :=
  joinSp ((splitSp p1).map pcenWordB)

/-- The fixed glitch character pool (`renderGlitchText`, line 830). -/
def glitchPool : List Char :=
  "ABCDEFGHIJKLMNOPQRSTUVWXYZabcdefghijklmnopqrstuvwxyz0123456789!@#$%^&*()-_=+".toList

/-- `Math.floor(r * k)` for a `Math.random()` draw `r`. -/
def randFloor (r : ℚ) (k : ℕ) : ℕ :=
  (r * (k : ℚ)).floor.toNat

/-- `pool[Math.floor(Math.random() * pool.length)]`. -/
def poolChar (r : ℚ) : Char :=
  glitchPool.getD (randFloor r glitchPool.length) 'A'

/-- Random font pick `glitchFonts[Math.floor(Math.random() * glitchFonts.length)]`. -/
def fontPick (fonts : List String) (r : ℚ) : String :=
  fonts.getD (randFloor r fonts.length) ""

/-- Characters JS `String.prototype.trim` removes: the ECMAScript
WhiteSpace set (TAB, VT, FF, SP, NBSP, ZWNBSP U+FEFF, and the Unicode
Space_Separator category U+1680, U+2000-U+200A, U+202F, U+205F, U+3000)
together with the LineTerminator set (LF, CR, U+2028, U+2029). -/
def jsIsWhite (c : Char) : Bool :=
  let n := c.toNat
  n == 0x9 || n == 0xA || n == 0xB || n == 0xC || n == 0xD ||
    n == 0x20 || n == 0xA0 || n == 0x1680 ||
    (decide (0x2000 ≤ n) && decide (n ≤ 0x200A)) ||
    n == 0x2028 || n == 0x2029 || n == 0x202F || n == 0x205F ||
    n == 0x3000 || n == 0xFEFF

/-- `Math.min(Math.max(parseInt(int), 2), 10)` — the intensity clamp
applied at both glitch call sites (`index.js` lines 807-812). -/
def clampIntensity (n : ℕ) : ℕ :=
  min (max n 2) 10

/-- `Math.max(0.08, 0.6 - intensity * 0.05)` (`renderGlitchText`,
line 841), modelled exactly over `ℚ`. -/
def glitchSpeed (intensity : ℕ) : ℚ :=
  max (8 / 100 : ℚ) (6 / 10 - (intensity : ℚ) * (5 / 100))

/-- One rendered unit of glitch output: a literal space, or one wrapped
`glitch-char` span carrying its display character, optional font and
animation speed. -/
inductive GlitchSlot : Type where
  | space
  | char (display : Char) (font : Option String) (speed : ℚ)

/-- The per-character map of `renderGlitchText` (lines 843-852):
spaces pass through; every other character becomes a wrapped slot with a
random display character and (when the font pool is non-empty) a random
font.  `rand` is the `Math.random()` stream, `i` the index of its next
unconsumed draw. -/
def glitchSlots (rand : ℕ → ℚ) (fonts : List String) (speed : ℚ) :
    ℕ → List Char → List GlitchSlot
  | _, [] => []
  | i, c :: cs =>
    if c = ' ' then GlitchSlot.space :: glitchSlots rand fonts speed i cs
    else if fonts.isEmpty then
      GlitchSlot.char (poolChar (rand i)) none speed ::
        glitchSlots rand fonts speed (i + 1) cs
    else
      GlitchSlot.char (poolChar (rand i)) (some (fontPick fonts (rand (i + 1)))) speed ::
        glitchSlots rand fonts speed (i + 2) cs

/-- `renderGlitchText(text, intensity)` (`index.js` lines 829-855), as the
list of slots inside the `glitch-container` span.  When the text is empty
or whitespace-only (`!text || text.trim().length === 0`), a replacement
text of `Math.floor(Math.random()*5) + 3` pool characters is generated
first. -/
def renderGlitchText (rand : ℕ → ℚ) (i0 : ℕ) (fonts : List String)
    (text : List Char) (intensity : ℕ) : List GlitchSlot :=
  let speed := glitchSpeed intensity
  if text.isEmpty || text.all jsIsWhite then
    let len := randFloor (rand i0) 5 + 3
    let gen := (List.range len).map (fun j => poolChar (rand (i0 + 1 + j)))
    glitchSlots rand fonts speed (i0 + 1 + len) gen
  else glitchSlots rand fonts speed i0 text

/-- The `<glitch intensity="N">txt</glitch>` replacement callback
(`index.js` lines 807-809): clamp the parsed intensity, render.  The
self-closed form (lines 810-812) is the `txt = []` case. -/
def glitchTagReplace (rand : ℕ → ℚ) (i0 : ℕ) (fonts : List String)
    (n : ℕ) (txt : List Char) : List GlitchSlot :=
  renderGlitchText rand i0 fonts txt (clampIntensity n)

/-- Number of wrapped character slots (non-space units) in glitch output. -/
def slotCount (l : List GlitchSlot) : ℕ :=
  l.countP (fun s => match s with | GlitchSlot.space => false | GlitchSlot.char _ _ _ => true)

/-! ### Concrete documents and inputs used by the claim instances -/

/-- A document whose single `item` sits inside `feed` but outside
`channel`: `<feed><channel/><item><title>t</title><id>1</id></item></feed>`. -/
def docItemOutsideChannel : List XMLNode :=
  [XMLNode.node "feed" ""
    [XMLNode.node "channel" "" [],
     XMLNode.node "item" "" [XMLNode.node "title" "t" [], XMLNode.node "id" "1" []]]]

/-- The well-formed item `<item><title>T</title><id>1</id></item>`. -/
def goodItem : XMLNode :=
  XMLNode.node "item" "" [XMLNode.node "title" "T" [], XMLNode.node "id" "1" []]

/-- An item with no children at all (missing `title` and `id`). -/
def badItem : XMLNode := XMLNode.node "item" "" []

/-- A document with one valid item inside the channel and one malformed
item inside `feed` but outside the channel. -/
def docStrayBadItem : List XMLNode :=
  [XMLNode.node "feed" ""
    [XMLNode.node "channel" "" [goodItem], badItem]]

/-- The record the parser extracts from `goodItem`. -/
def goodRec : PostRecord :=
  { title := "T", id := "1", type := "", heading := "", description := ""
  , content := "", pubDate := some {} }

/-- The channel of the fully well-formed one-item document below. -/
def chanOK : XMLNode := XMLNode.node "channel" "" [goodItem]

/-- A fully well-formed one-item feed document. -/
def docOK : List XMLNode := [XMLNode.node "feed" "" [chanOK]]

/-- A constantly-zero `Math.random()` stream. -/
def rand0 : ℕ → ℚ := fun _ => 0

/-! ### Structural lemmas about the document model -/

mutual

/-- Simultaneous induction principle for nodes and forests. -/
theorem xmlInd (P : XMLNode → Prop) (Q : List XMLNode → Prop)
    (h1 : ∀ t s cs, Q cs → P (XMLNode.node t s cs)) (h2 : Q [])
    (h3 : ∀ n ns, P n → Q ns → Q (n :: ns)) : ∀ n, P n
  | XMLNode.node t s cs => h1 t s cs (xmlIndList P Q h1 h2 h3 cs)

theorem xmlIndList (P : XMLNode → Prop) (Q : List XMLNode → Prop)
    (h1 : ∀ t s cs, Q cs → P (XMLNode.node t s cs)) (h2 : Q [])
    (h3 : ∀ n ns, P n → Q ns → Q (n :: ns)) : ∀ l, Q l
  | [] => h2
  | n :: ns => h3 n ns (xmlInd P Q h1 h2 h3 n) (xmlIndList P Q h1 h2 h3 ns)

end

theorem mem_subnodes_self (n : XMLNode) : n ∈ subnodes n := by
  cases n with
  | node t s cs => simp [subnodes]

theorem children_sub (n : XMLNode) : ∀ y ∈ subnodesList n.children, y ∈ subnodes n := by
  cases n with
  | node t s cs =>
    intro y hy
    simp [subnodes, XMLNode.children] at hy ⊢
    exact Or.inr hy

theorem mem_subnodesList_of_mem {l : List XMLNode} {x : XMLNode} (hx : x ∈ l) :
    x ∈ subnodesList l := by
  induction l with
  | nil => cases hx
  | cons n ns ih =>
    rcases List.mem_cons.mp hx with rfl | hx
    · simp [subnodesList]
      exact Or.inl (mem_subnodes_self x)
    · simp [subnodesList]
      exact Or.inr (ih hx)

theorem subnodes_trans :
    ∀ l : List XMLNode, ∀ x ∈ subnodesList l, ∀ y ∈ subnodes x, y ∈ subnodesList l := by
  refine xmlIndList
    (fun n => ∀ x ∈ subnodes n, ∀ y ∈ subnodes x, y ∈ subnodes n)
    (fun l => ∀ x ∈ subnodesList l, ∀ y ∈ subnodes x, y ∈ subnodesList l)
    ?_ ?_ ?_
  · intro t s cs hQ x hx y hy
    simp [subnodes] at hx ⊢
    rcases hx with rfl | hx
    · simpa [subnodes] using hy
    · exact Or.inr (hQ x hx y hy)
  · intro x hx
    cases hx
  · intro n ns hP hQ x hx y hy
    simp [subnodesList] at hx ⊢
    rcases hx with hx | hx
    · exact Or.inl (hP x hx y hy)
    · exact Or.inr (hQ x hx y hy)

theorem mem_docAll {roots : List XMLNode} {t : String} {x : XMLNode} :
    x ∈ docAll roots t ↔ x ∈ subnodesList roots ∧ x.tag = t := by
  simp [docAll, List.mem_filter]

theorem mem_elemAll {el : XMLNode} {t : String} {x : XMLNode} :
    x ∈ elemAll el t ↔ x ∈ subnodesList el.children ∧ x.tag = t := by
  simp [elemAll, List.mem_filter]

theorem fcc_facts :
    ∀ l : List XMLNode, ∀ (b : Bool), ∀ x ∈ feedChildChannelsList b l,
      x.tag = "channel" ∧
        ((b = true ∧ x ∈ l) ∨
          ∃ p, p ∈ subnodesList l ∧ p.tag = "feed" ∧ x ∈ p.children) := by
  refine xmlIndList
    (fun n => ∀ (b : Bool), ∀ x ∈ feedChildChannels b n,
      x.tag = "channel" ∧
        ((b = true ∧ x = n) ∨ ∃ p, p ∈ subnodes n ∧ p.tag = "feed" ∧ x ∈ p.children))
    (fun l => ∀ (b : Bool), ∀ x ∈ feedChildChannelsList b l,
      x.tag = "channel" ∧
        ((b = true ∧ x ∈ l) ∨ ∃ p, p ∈ subnodesList l ∧ p.tag = "feed" ∧ x ∈ p.children))
    ?_ ?_ ?_
  · intro t s cs hQ b x hx
    simp only [feedChildChannels, List.mem_append] at hx
    rcases hx with hx | hx
    · split at hx
      next hcond =>
        rcases List.mem_singleton.mp hx with rfl
        exact ⟨by simpa [XMLNode.tag] using hcond.2, Or.inl ⟨hcond.1, rfl⟩⟩
      next => cases hx
    · obtain ⟨htag, hrest⟩ := hQ (t == "feed") x hx
      refine ⟨htag, Or.inr ?_⟩
      rcases hrest with ⟨hb, hmem⟩ | ⟨p, hp, hpf, hxp⟩
      · refine ⟨XMLNode.node t s cs, mem_subnodes_self _, ?_, ?_⟩
        · simpa [XMLNode.tag] using (beq_iff_eq.mp hb)
        · simpa [XMLNode.children] using hmem
      · exact ⟨p, children_sub (XMLNode.node t s cs) p (by simpa [XMLNode.children] using hp),
          hpf, hxp⟩
  · intro b x hx
    cases hx
  · intro n ns hP hQ b x hx
    simp only [feedChildChannelsList, List.mem_append] at hx
    rcases hx with hx | hx
    · obtain ⟨htag, hrest⟩ := hP b x hx
      refine ⟨htag, ?_⟩
      rcases hrest with ⟨hb, rfl⟩ | ⟨p, hp, hpf, hxp⟩
      · exact Or.inl ⟨hb, List.mem_cons_self _ _⟩
      · exact Or.inr ⟨p, by simp [subnodesList]; exact Or.inl hp, hpf, hxp⟩
    · obtain ⟨htag, hrest⟩ := hQ b x hx
      refine ⟨htag, ?_⟩
      rcases hrest with ⟨hb, hmem⟩ | ⟨p, hp, hpf, hxp⟩
      · exact Or.inl ⟨hb, List.mem_cons_of_mem _ hmem⟩
      · exact Or.inr ⟨p, by simp [subnodesList]; exact Or.inr hp, hpf, hxp⟩

theorem head?_mem {α : Type} {l : List α} {a : α} (h : l.head? = some a) : a ∈ l := by
  cases l with
  | nil => cases h
  | cons x xs =>
    simp [List.head?] at h
    subst h
    exact List.mem_cons_self _ _

/-- Facts about a successful `feed > channel` selection. -/
theorem selFeedChannel_facts {roots : List XMLNode} {ch : XMLNode}
    (h : selFeedChannel roots = some ch) :
    ch.tag = "channel" ∧ ch ∈ subnodesList roots ∧
      ∃ p, p ∈ subnodesList roots ∧ p.tag = "feed" ∧ ch ∈ p.children := by
  have hmem : ch ∈ feedChildChannelsList false roots := head?_mem h
  obtain ⟨htag, hrest⟩ := fcc_facts roots false ch hmem
  rcases hrest with ⟨hb, _⟩ | ⟨p, hp, hpf, hxp⟩
  · cases hb
  · refine ⟨htag, ?_, p, hp, hpf, hxp⟩
    exact subnodes_trans roots p hp ch
      (children_sub p ch (mem_subnodesList_of_mem hxp))

/-- Elements found inside the selected channel are elements of the
whole document. -/
theorem elemAll_sub_docAll {roots : List XMLNode} {ch : XMLNode} {t : String}
    (hch : ch ∈ subnodesList roots) :
    ∀ x ∈ elemAll ch t, x ∈ docAll roots t := by
  intro x hx
  obtain ⟨hmem, htag⟩ := mem_elemAll.mp hx
  exact mem_docAll.mpr
    ⟨subnodes_trans roots ch hch x (children_sub ch x hmem), htag⟩

/-! ### Lemmas about item parsing and the map over items -/

theorem mapParse_ok {f : XMLNode → Except String PostRecord} {g : XMLNode → PostRecord} :
    ∀ l : List XMLNode, (∀ x ∈ l, f x = Except.ok (g x)) →
      mapParse f l = Except.ok (l.map g) := by
  intro l h
  induction l with
  | nil => rfl
  | cons a l ih =>
    have ha := h a (List.mem_cons_self _ _)
    have ih' := ih (fun x hx => h x (List.mem_cons_of_mem _ hx))
    simp [mapParse, ha, ih']

theorem mapParse_error {f : XMLNode → Except String PostRecord} :
    ∀ l : List XMLNode, ∀ x ∈ l, (∃ m, f x = Except.error m) →
      ∃ m', mapParse f l = Except.error m' := by
  intro l
  induction l with
  | nil => intro x hx; cases hx
  | cons a l ih =>
    intro x hx hm
    rcases List.mem_cons.mp hx with rfl | hx
    · obtain ⟨m, hm⟩ := hm
      exact ⟨m, by simp [mapParse, hm]⟩
    · cases hfa : f a with
      | error m2 => exact ⟨m2, by simp [mapParse, hfa]⟩
      | ok r =>
        obtain ⟨m', hm'⟩ := ih x hx hm
        exact ⟨m', by simp [mapParse, hfa, hm']⟩

theorem wParseItem_eq_mParseItem : wParseItem = mParseItem := rfl

theorem mParseItem_ok {it : XMLNode} (ht : (elemQS it "title").isSome)
    (hi : (elemQS it "id").isSome) :
    mParseItem it = Except.ok (recordOf it) := by
  obtain ⟨t, ht'⟩ := Option.isSome_iff_exists.mp ht
  obtain ⟨i, hi'⟩ := Option.isSome_iff_exists.mp hi
  simp [mParseItem, recordOf, ht', hi']

theorem mParseItem_err {it : XMLNode}
    (h : elemQS it "title" = none ∨ elemQS it "id" = none) :
    mParseItem it = Except.error "Missing required title/id in <item>" := by
  cases ht : elemQS it "title" <;> cases hi : elemQS it "id" <;>
    simp [mParseItem, ht, hi] <;> simp [ht, hi] at h

theorem mParseItem_error_msg {it : XMLNode} {m : String}
    (h : mParseItem it = Except.error m) :
    m = "Missing required title/id in <item>" := by
  cases ht : elemQS it "title" <;> cases hi : elemQS it "id" <;>
    simp [mParseItem, ht, hi] at h <;> exact h.symm

theorem mapParse_mParseItem_msg :
    ∀ l : List XMLNode, ∀ m, mapParse mParseItem l = Except.error m →
      m = "Missing required title/id in <item>" := by
  intro l
  induction l with
  | nil => intro m h; cases h
  | cons a l ih =>
    intro m h
    cases hfa : mParseItem a with
    | error m2 =>
      simp [mapParse, hfa] at h
      exact h ▸ mParseItem_error_msg hfa
    | ok r =>
      cases hrest : mapParse mParseItem l with
      | error m2 =>
        simp [mapParse, hfa, hrest] at h
        exact h ▸ ih m2 hrest
      | ok rs => simp [mapParse, hfa, hrest] at h

theorem string_append_ne_empty {a b : String} (ha : a.length ≠ 0) : a ++ b ≠ "" := by
  intro h
  have hl := congrArg String.length h
  rw [String.length_append] at hl
  simp at hl
  exact ha hl.1

/-- Every error message `parseXMLMainThread` can produce is non-empty. -/
theorem parseXMLMainThread_msg_ne_empty {roots : List XMLNode} {m : String}
    (h : parseXMLMainThread roots = Except.error m) : m ≠ "" := by
  unfold parseXMLMainThread at h
  cases hpe : docQS roots "parsererror" with
  | some pe =>
    rw [hpe] at h
    simp at h
    exact h ▸ string_append_ne_empty (by decide)
  | none =>
    rw [hpe] at h
    cases hch : selFeedChannel roots with
    | none => rw [hch] at h; simp at h; simp [← h]
    | some ch =>
      rw [hch] at h
      simp at h
      by_cases hlen : (elemAll ch "item").length = 0
      · rw [if_pos hlen] at h
        simp at h
        simp [← h]
      · rw [if_neg hlen] at h
        have := mapParse_mParseItem_msg _ _ h
        simp [this]

theorem docQS_isNone_false {roots : List XMLNode} {t : String}
    (h : docAll roots t ≠ []) : (docQS roots t).isNone = false := by
  obtain ⟨a, l', heq⟩ := List.exists_cons_of_ne_nil h
  simp [docQS, heq]

/-- C3: the public loader operations `parseXML` and `loadXML` always
return a result value carrying a success flag — data on success, an error
string on failure — and capture every internal failure (fetch failure and
parse failure on both execution paths) as a returned value; parse-failure
messages are non-empty. -/
theorem c3_loader_failures_as_values :
    (∀ (w : Bool) (f : FetchOutcome),
      (∃ d, loadXML w f = LoadResult.ok d ∧ (loadXML w f).success = true) ∨
        (∃ m, loadXML w f = LoadResult.err m ∧ (loadXML w f).success = false)) ∧
    (∀ (w : Bool) (m : String), loadXML w (FetchOutcome.netError m) = LoadResult.err m) ∧
    (∀ (w : Bool) (st : String),
      loadXML w (FetchOutcome.httpError st) =
        LoadResult.err ("Failed to load XML: " ++ st)) ∧
    (∀ (roots : List XMLNode) (m : String), parseXMLMainThread roots = Except.error m →
      parseXML false roots = LoadResult.err m ∧
        ∀ e, parseXMLWorkerBody roots = Except.error e →
          parseXML true roots = LoadResult.err m) ∧
    (∀ (roots : List XMLNode) (m : String),
      parseXMLMainThread roots = Except.error m → m ≠ "") := by
  refine ⟨?_, ?_, ?_, ?_, ?_⟩
  · intro w f
    rcases hr : loadXML w f with d | m
    · exact Or.inl ⟨d, rfl, by simp [LoadResult.success]⟩
    · exact Or.inr ⟨m, rfl, by simp [LoadResult.success]⟩
  · intro w m; rfl
  · intro w st; rfl
  · intro roots m hm
    refine ⟨by simp [parseXML, workerResult, hm], ?_⟩
    intro e he
    simp [parseXML, workerResult, he, hm]
  · intro roots m hm
    exact parseXMLMainThread_msg_ne_empty hm

/-- C3 witness: the fetch and parse failure paths at concrete inputs. -/
theorem c3_loader_failures_as_values_witness :
    parseXML false [] = LoadResult.err "No <feed><channel> found" ∧
    ("No <feed><channel> found" : String) ≠ "" ∧
    loadXML true (FetchOutcome.netError "boom") = LoadResult.err "boom" :=
  ⟨(c3_loader_failures_as_values.2.2.2.1 [] _ rfl).1,
   c3_loader_failures_as_values.2.2.2.2 [] _ rfl,
   c3_loader_failures_as_values.2.1 true "boom"⟩

/-- C2 counterexample: on the document
`<feed><channel/><item><title>t</title><id>1</id></item></feed>` the
worker path succeeds with an empty record list while the main-thread path
fails, so the two paths do not apply identical validation and the caller
can observe which path ran. -/
theorem c2_counterexample :
    parseXML true docItemOutsideChannel = LoadResult.ok [] ∧
    parseXML false docItemOutsideChannel = LoadResult.err "No <item> elements found" ∧
    LoadResult.ok [] ≠ LoadResult.err "No <item> elements found" :=
  ⟨rfl, rfl, fun h => LoadResult.noConfusion h⟩

/-- C2 amended: any worker-path error triggers exactly one synchronous
main-thread retry whose outcome is exactly what a pure main-thread parse
returns; whenever the main thread succeeds the worker body agrees; and the
two paths share one item-conversion function, so they produce identical
PostRecord shapes.  (The converse fails: the worker body can succeed with
an empty list where the main thread fails, because the worker counts
`item` elements document-wide while the main thread requires items inside
the selected channel — see the counterexample.) -/
theorem c2_worker_fallback_amended :
    (∀ (w : Bool) (roots : List XMLNode) (e : String),
      workerResult w roots = Except.error e → parseXML w roots = parseXML false roots) ∧
    (∀ (roots : List XMLNode) (d : List PostRecord),
      parseXMLMainThread roots = Except.ok d → parseXMLWorkerBody roots = Except.ok d) ∧
    wParseItem = mParseItem := by
  refine ⟨?_, ?_, wParseItem_eq_mParseItem⟩
  · intro w roots e he
    cases w with
    | false => rfl
    | true =>
      have he' : parseXMLWorkerBody roots = Except.error e := he
      simp [parseXML, workerResult, he']
  · intro roots d h
    rw [parseXMLMainThread] at h
    split at h
    · cases h
    · split at h
      · cases h
      · next ch hch =>
        dsimp only at h
        split at h
        · cases h
        · next hlen =>
          obtain ⟨htag, hmem, p, hp, hpf, hchp⟩ := selFeedChannel_facts hch
          have h1 : (docQS roots "feed").isNone = false :=
            docQS_isNone_false (List.ne_nil_of_mem (mem_docAll.mpr ⟨hp, hpf⟩))
          have h2 : (docQS roots "channel").isNone = false :=
            docQS_isNone_false (List.ne_nil_of_mem (mem_docAll.mpr ⟨hmem, htag⟩))
          have hitems : elemAll ch "item" ≠ [] := fun hnil => hlen (by simp [hnil])
          obtain ⟨a, l', heq⟩ := List.exists_cons_of_ne_nil hitems
          have h3 : (docAll roots "item").length ≠ 0 := by
            have : a ∈ docAll roots "item" :=
              elemAll_sub_docAll hmem a (by simp [heq])
            intro hz
            rw [List.length_eq_zero] at hz
            simp [hz] at this
          have hvalid : validateXMLStructure roots = [] := by
            simp [validateXMLStructure, h1, h2, h3]
          rw [parseXMLWorkerBody, hvalid]
          simp [hch, wParseItem_eq_mParseItem, h]

/-- C2 witness: the fallback equivalence applied to the empty document,
on which the worker body fails validation. -/
theorem c2_worker_fallback_amended_witness :
    parseXML true [] = parseXML false [] :=
  c2_worker_fallback_amended.1 true []
    "Invalid XML: Missing <feed>, Missing <channel>, No <item> elements" rfl

/-- Under any of the four bad-structure conditions (no `feed`, no
`channel`, no `item` element anywhere, or a channel item missing
`title`/`id`) the main-thread parse fails. -/
theorem parseXMLMainThread_errs {roots : List XMLNode}
    (h : docAll roots "feed" = [] ∨ docAll roots "channel" = [] ∨
      docAll roots "item" = [] ∨
      ∃ ch, selFeedChannel roots = some ch ∧
        ∃ it ∈ elemAll ch "item", elemQS it "title" = none ∨ elemQS it "id" = none) :
    ∃ m, parseXMLMainThread roots = Except.error m := by
  rw [parseXMLMainThread]
  cases hpe : docQS roots "parsererror" with
  | some pe => exact ⟨_, rfl⟩
  | none =>
    cases hch : selFeedChannel roots with
    | none => exact ⟨_, rfl⟩
    | some ch =>
      obtain ⟨htag, hmem, p, hp, hpf, _⟩ := selFeedChannel_facts hch
      rcases h with h | h | h | h
      · exact absurd (mem_docAll.mpr ⟨hp, hpf⟩) (by simp [h])
      · exact absurd (mem_docAll.mpr ⟨hmem, htag⟩) (by simp [h])
      · have hempty : elemAll ch "item" = [] := by
          rcases hx : elemAll ch "item" with _ | ⟨a, l⟩
          · rfl
          · have ha : a ∈ docAll roots "item" :=
              elemAll_sub_docAll hmem a (by simp [hx])
            simp [h] at ha
        exact ⟨"No <item> elements found", by simp [hempty]⟩
      · obtain ⟨ch', hch', it, hit, hbad⟩ := h
        rw [hch] at hch'
        injection hch' with hcc
        subst hcc
        have hlen : ¬(elemAll ch "item").length = 0 := by
          intro hz
          rw [List.length_eq_zero] at hz
          simp [hz] at hit
        obtain ⟨m', hm'⟩ := mapParse_error (f := mParseItem) (elemAll ch "item") it hit
          ⟨_, mParseItem_err hbad⟩
        exact ⟨m', by simp [hlen, hm']⟩

/-- Under the same four bad-structure conditions the worker body fails. -/
theorem parseXMLWorkerBody_errs {roots : List XMLNode}
    (h : docAll roots "feed" = [] ∨ docAll roots "channel" = [] ∨
      docAll roots "item" = [] ∨
      ∃ ch, selFeedChannel roots = some ch ∧
        ∃ it ∈ elemAll ch "item", elemQS it "title" = none ∨ elemQS it "id" = none) :
    ∃ e, parseXMLWorkerBody roots = Except.error e := by
  rw [parseXMLWorkerBody]
  split
  · exact ⟨_, rfl⟩
  · next hv =>
    have hv' : validateXMLStructure roots = [] := by
      rcases hx : validateXMLStructure roots with _ | ⟨a, l⟩
      · rfl
      · rw [hx] at hv; simp at hv
    have hfeed : (docQS roots "feed").isNone = false := by
      cases hb : (docQS roots "feed").isNone with
      | false => rfl
      | true => simp [validateXMLStructure, hb] at hv'
    have hchan : (docQS roots "channel").isNone = false := by
      cases hb : (docQS roots "channel").isNone with
      | false => rfl
      | true => simp [validateXMLStructure, hb] at hv'
    have hitems : ¬(docAll roots "item").length = 0 := by
      intro hz
      simp [validateXMLStructure, hz] at hv'
    rcases h with h | h | h | h
    · rw [docQS, h] at hfeed; simp at hfeed
    · rw [docQS, h] at hchan; simp at hchan
    · exact absurd (by simp [h] : (docAll roots "item").length = 0) hitems
    · obtain ⟨ch, hch, it, hit, hbad⟩ := h
      rw [hch, wParseItem_eq_mParseItem]
      exact mapParse_error (elemAll ch "item") it hit ⟨_, mParseItem_err hbad⟩

/-- C1 counterexample: the document
`<feed><channel><item><title>T</title><id>1</id></item></channel><item/></feed>`
contains an item element missing both `title` and `id`, yet `parseXML`
succeeds on both paths (with the channel's record only), because items
outside the selected channel are never validated. -/
theorem c1_counterexample :
    (badItem ∈ docAll docStrayBadItem "item" ∧ elemQS badItem "title" = none) ∧
    parseXML true docStrayBadItem = LoadResult.ok [goodRec] ∧
    parseXML false docStrayBadItem = LoadResult.ok [goodRec] := by
  refine ⟨⟨?_, rfl⟩, rfl, rfl⟩
  rw [show docAll docStrayBadItem "item" = [goodItem, badItem] from rfl]
  exact List.mem_cons_of_mem _ (List.mem_cons_self _ _)

/-- C1 amended: for every feed document that lacks a `feed` element,
lacks a `channel` element, contains zero `item` elements, or whose
selected channel contains an item missing a `title` or an `id` child,
`parseXML` returns failure with an error message — never a partial list —
on both execution paths.  (Items outside the selected channel are not
covered: see the counterexample.) -/
theorem c1_validation_failfast_amended :
    ∀ (w : Bool) (roots : List XMLNode),
      (docAll roots "feed" = [] ∨ docAll roots "channel" = [] ∨
        docAll roots "item" = [] ∨
        ∃ ch, selFeedChannel roots = some ch ∧
          ∃ it ∈ elemAll ch "item",
            elemQS it "title" = none ∨ elemQS it "id" = none) →
      ∃ m, parseXML w roots = LoadResult.err m := by
  intro w roots h
  obtain ⟨m, hm⟩ := parseXMLMainThread_errs h
  cases w with
  | false => exact ⟨m, by simp [parseXML, workerResult, hm]⟩
  | true =>
    obtain ⟨e, he⟩ := parseXMLWorkerBody_errs h
    exact ⟨m, by simp [parseXML, workerResult, he, hm]⟩

/-- C1 witness: the amended theorem applied to the empty document
(which lacks a `feed` element). -/
theorem c1_validation_failfast_amended_witness :
    (∃ m, parseXML false [] = LoadResult.err m) ∧
    parseXML false [] = LoadResult.err "No <feed><channel> found" :=
  ⟨c1_validation_failfast_amended false [] (Or.inl rfl), rfl⟩

/-- C4: for every well-formed feed — no parse error, a selected
`feed > channel`, and `n ≥ 1` channel items each having `title` and `id`
children — `parseXML` succeeds on both execution paths and returns
exactly `n` PostRecords, one per item in document order (the order of
`elemAll`, the document-order traversal), not re-sorted by any key. -/
theorem c4_wellformed_feed_document_order :
    ∀ (w : Bool) (roots : List XMLNode) (ch : XMLNode) (n : ℕ),
      docAll roots "parsererror" = [] →
      selFeedChannel roots = some ch →
      (elemAll ch "item").length = n →
      1 ≤ n →
      (∀ it ∈ elemAll ch "item", (elemQS it "title").isSome ∧ (elemQS it "id").isSome) →
      parseXML w roots = LoadResult.ok ((elemAll ch "item").map recordOf) ∧
        ((elemAll ch "item").map recordOf).length = n := by
  intro w roots ch n hpe hch hn hn1 hok
  have hpe' : docQS roots "parsererror" = none := by simp [docQS, hpe]
  have hmain : parseXMLMainThread roots =
      Except.ok ((elemAll ch "item").map recordOf) := by
    rw [parseXMLMainThread, hpe', hch]
    dsimp only
    rw [if_neg (by omega : ¬(elemAll ch "item").length = 0)]
    exact mapParse_ok _ (fun x hx => mParseItem_ok (hok x hx).1 (hok x hx).2)
  have hworker : parseXMLWorkerBody roots =
      Except.ok ((elemAll ch "item").map recordOf) := by
    obtain ⟨htag, hmem, p, hp, hpf, _⟩ := selFeedChannel_facts hch
    have h1 : (docQS roots "feed").isNone = false :=
      docQS_isNone_false (List.ne_nil_of_mem (mem_docAll.mpr ⟨hp, hpf⟩))
    have h2 : (docQS roots "channel").isNone = false :=
      docQS_isNone_false (List.ne_nil_of_mem (mem_docAll.mpr ⟨hmem, htag⟩))
    have hitems_ne : elemAll ch "item" ≠ [] := by
      intro hz; rw [hz] at hn; simp at hn; omega
    obtain ⟨a, l', heq⟩ := List.exists_cons_of_ne_nil hitems_ne
    have h3 : ¬(docAll roots "item").length = 0 := by
      have ha : a ∈ docAll roots "item" :=
        elemAll_sub_docAll hmem a (by simp [heq])
      intro hz; rw [List.length_eq_zero] at hz; simp [hz] at ha
    have hvalid : validateXMLStructure roots = [] := by
      simp [validateXMLStructure, h1, h2, h3]
    rw [parseXMLWorkerBody, hvalid]
    simp only [List.length_nil, lt_irrefl, if_false, hch]
    rw [wParseItem_eq_mParseItem]
    exact mapParse_ok _ (fun x hx => mParseItem_ok (hok x hx).1 (hok x hx).2)
  refine ⟨?_, by rw [List.length_map]; exact hn⟩
  cases w with
  | true => simp [parseXML, workerResult, hworker]
  | false => simp [parseXML, workerResult, hmain]

/-- C4 witness: the one-item well-formed feed succeeds on both paths. -/
theorem c4_wellformed_feed_document_order_witness :
    parseXML true docOK = LoadResult.ok [recordOf goodItem] ∧
    parseXML false docOK = LoadResult.ok [recordOf goodItem] := by
  have hok : ∀ it ∈ elemAll chanOK "item",
      (elemQS it "title").isSome ∧ (elemQS it "id").isSome := by
    intro it hit
    rw [show elemAll chanOK "item" = [goodItem] from rfl] at hit
    rcases List.mem_singleton.mp hit with rfl
    exact ⟨rfl, rfl⟩
  exact
    ⟨(c4_wellformed_feed_document_order true docOK chanOK 1 rfl rfl rfl
        (le_refl 1) hok).1,
     (c4_wellformed_feed_document_order false docOK chanOK 1 rfl rfl rfl
        (le_refl 1) hok).1⟩

/-- C9 counterexample: for the item
`<item><title>T</title><id>1</id></item>` (no `pubDate` child) the parsed
record's `pubDate` field is present and holds the empty object — it is
not absent, contradicting the claim that the field is absent entirely. -/
theorem c9_counterexample :
    mParseItem goodItem = Except.ok goodRec ∧
    goodRec.pubDate = some { date := none, timezone := none } ∧
    some ({ date := none, timezone := none } : PubDate) ≠ none :=
  ⟨rfl, rfl, fun h => Option.noConfusion h⟩

/-- C9 amended: every successfully parsed record carries a `pubDate`
key: when the item has no `pubDate` child it holds the empty object
(both fields unset) rather than being absent; when a `pubDate` element is
present, a missing `date` or `timezone` child defaults to the empty
string in the structured pair. -/
theorem c9_pubdate_amended :
    ∀ (it : XMLNode) (r : PostRecord), mParseItem it = Except.ok r →
      r.pubDate.isSome ∧
      (elemQS it "pubDate" = none →
        r.pubDate = some { date := none, timezone := none }) ∧
      (∀ pd, elemQS it "pubDate" = some pd →
        r.pubDate = some
          { date := some (((elemQS pd "date").map XMLNode.text).getD "")
          , timezone := some (((elemQS pd "timezone").map XMLNode.text).getD "") } ∧
        (elemQS pd "date" = none →
          r.pubDate = some
            { date := some ""
            , timezone := some (((elemQS pd "timezone").map XMLNode.text).getD "") }) ∧
        (elemQS pd "timezone" = none →
          r.pubDate = some
            { date := some (((elemQS pd "date").map XMLNode.text).getD "")
            , timezone := some "" })) := by
  intro it r h
  rw [mParseItem] at h
  cases ht : elemQS it "title" <;> rw [ht] at h <;>
    cases hi : elemQS it "id" <;> rw [hi] at h <;> simp at h
  rw [← h]
  refine ⟨?_, ?_, ?_⟩
  · cases hpd : elemQS it "pubDate" <;> simp [hpd]
  · intro hpd; simp [hpd]
  · intro pd hpd
    refine ⟨by simp [hpd], ?_, ?_⟩
    · intro hd; simp [hpd, hd]
    · intro htz; simp [hpd, htz]

/-- C9 witness: the amended theorem applied to an item without a
`pubDate` child. -/
theorem c9_pubdate_amended_witness :
    goodRec.pubDate.isSome ∧
    goodRec.pubDate = some { date := none, timezone := none } :=
  ⟨(c9_pubdate_amended goodItem goodRec rfl).1,
   (c9_pubdate_amended goodItem goodRec rfl).2.1 rfl⟩

/-- C5: the full-censor transform replaces the enclosed text with one
U+2588 block glyph per character of the enclosed text — spaces included —
so for enclosed text of length `L` the emitted block-glyph run has length
exactly `L`, and the glyph count in the whole replacement equals `L`.
The count is per character of the string, not per byte: the two-character
input `['█', 'x']` (4 UTF-8 bytes) yields a run of 2 glyphs. -/
theorem c5_censor_block_per_character :
    ∀ p1 : List Char,
      censorReplacement p1 =
        censorOpen ++ List.replicate p1.length blockChar ++ censorClose ∧
      (censorReplacement p1).count blockChar = p1.length ∧
      (censorBlocks p1).length = p1.length ∧
      (censorBlocks [blockChar, 'x']).length = 2 ∧
      utf8Len [blockChar, 'x'] = 4 := by
  intro p1
  have h1 : censorOpen.count blockChar = 0 := by decide
  have h2 : censorClose.count blockChar = 0 := by decide
  refine ⟨rfl, ?_, by simp [censorBlocks], by decide, by decide⟩
  simp [censorReplacement, censorBlocks, List.count_append, h1, h2,
    List.count_replicate_self]

/-- C7: the glitch intensity attribute is clamped into `[2,10]` before
use (15 becomes 10), and the animation-speed parameter is strictly
decreasing in intensity on the clamped range, non-increasing in the raw
attribute, and always at least `0.08 > 0` (the positive minimum of the
`Math.max(0.08, …)` clamp). -/
theorem c7_glitch_intensity_clamp_speed :
    (∀ n : ℕ, 2 ≤ clampIntensity n ∧ clampIntensity n ≤ 10) ∧
    clampIntensity 15 = 10 ∧
    (∀ i j : ℕ, 2 ≤ i → i < j → j ≤ 10 → glitchSpeed j < glitchSpeed i) ∧
    (∀ m n : ℕ, m ≤ n → glitchSpeed (clampIntensity n) ≤ glitchSpeed (clampIntensity m)) ∧
    (∀ n : ℕ, (8 : ℚ) / 100 ≤ glitchSpeed n ∧ 0 < glitchSpeed n) := by
  have hmax : ∀ k : ℕ, k ≤ 10 → glitchSpeed k = 6 / 10 - (k : ℚ) * (5 / 100) := by
    intro k hk
    have hk' : (k : ℚ) ≤ 10 := by exact_mod_cast hk
    rw [glitchSpeed, max_eq_right]
    nlinarith
  have hstrict : ∀ i j : ℕ, 2 ≤ i → i < j → j ≤ 10 → glitchSpeed j < glitchSpeed i := by
    intro i j hi hij hj
    rw [hmax j hj, hmax i (by omega)]
    have hc : (i : ℚ) < (j : ℚ) := by exact_mod_cast hij
    nlinarith
  refine ⟨?_, rfl, hstrict, ?_, ?_⟩
  · intro n
    constructor <;> (simp only [clampIntensity]; omega)
  · intro m n hmn
    have h1 : clampIntensity m ≤ clampIntensity n := by
      simp only [clampIntensity]; omega
    rcases eq_or_lt_of_le h1 with heq | hlt
    · rw [heq]
    · refine le_of_lt (hstrict _ _ ?_ hlt ?_)
      · simp only [clampIntensity]; omega
      · simp only [clampIntensity]; omega
  · intro n
    refine ⟨le_max_left _ _, lt_of_lt_of_le (by norm_num) (le_max_left _ _)⟩

/-- C7 witness: the clamp and monotonicity at concrete intensities. -/
theorem c7_glitch_intensity_clamp_speed_witness :
    glitchSpeed 3 < glitchSpeed 2 ∧ clampIntensity 15 = 10 ∧
    (8 : ℚ) / 100 ≤ glitchSpeed 10 :=
  ⟨c7_glitch_intensity_clamp_speed.2.2.1 2 3 (by norm_num) (by norm_num) (by norm_num),
   c7_glitch_intensity_clamp_speed.2.1,
   (c7_glitch_intensity_clamp_speed.2.2.2.2 10).1⟩

/-! ### Lemmas for the PCensor word transforms -/

theorem splitSp_ne_nil (l : List Char) : splitSp l ≠ [] := by
  cases l with
  | nil => simp [splitSp]
  | cons c cs =>
    by_cases hc : c = ' '
    · simp [splitSp, hc]
    · rcases hx : splitSp cs with _ | ⟨w, ws⟩ <;> simp [splitSp, hc, hx]

theorem splitSp_words : ∀ l : List Char, ∀ w ∈ splitSp l, ∀ c ∈ w, c ≠ ' ' := by
  intro l
  induction l with
  | nil =>
    intro w hw c hc
    simp [splitSp] at hw
    subst hw
    cases hc
  | cons a cs ih =>
    intro w hw c hc
    by_cases ha : a = ' '
    · rw [show splitSp (a :: cs) = [] :: splitSp cs from by simp [splitSp, ha]] at hw
      rcases List.mem_cons.mp hw with rfl | hw
      · cases hc
      · exact ih w hw c hc
    · rcases hx : splitSp cs with _ | ⟨w0, ws⟩
      · exact absurd hx (splitSp_ne_nil cs)
      · rw [show splitSp (a :: cs) = (a :: w0) :: ws from by simp [splitSp, ha, hx]] at hw
        rcases List.mem_cons.mp hw with rfl | hw
        · rcases List.mem_cons.mp hc with rfl | hcc
          · exact ha
          · exact ih w0 (by rw [hx]; exact List.mem_cons_self _ _) c hcc
        · exact ih w (by rw [hx]; exact List.mem_cons_of_mem _ hw) c hc

theorem spaceMask_cons (c : Char) (l : List Char) :
    spaceMask (c :: l) = (c == ' ') :: spaceMask l := rfl

theorem spaceMask_append (a b : List Char) :
    spaceMask (a ++ b) = spaceMask a ++ spaceMask b := List.map_append _ _ _

theorem spaceMask_allfalse {x : List Char} (h : ∀ c ∈ x, c ≠ ' ') :
    spaceMask x = List.replicate x.length false := by
  induction x with
  | nil => rfl
  | cons c l ih =>
    have hc : (c == ' ') = false := by simp [h c (List.mem_cons_self _ _)]
    rw [spaceMask_cons, hc, ih (fun d hd => h d (List.mem_cons_of_mem _ hd)),
      List.length_cons, List.replicate_succ]

theorem pcenWordA_length (w : List Char) : (pcenWordA w).length = w.length := by
  rw [pcenWordA]
  split
  · rfl
  · simp only [List.length_append, List.length_take, List.length_replicate]
    omega

theorem pcenWordB_length (w : List Char) : (pcenWordB w).length = w.length := by
  rw [pcenWordB]
  split
  · rfl
  · split
    · next h3 =>
      simp only [List.length_append, List.length_take, List.length_cons,
        List.length_drop]
      omega
    · dsimp only
      rw [List.length_map, List.enum_length]

theorem pcenWordA_chars (w : List Char) : ∀ c ∈ pcenWordA w, c ∈ w ∨ c = '*' := by
  intro c hc
  rw [pcenWordA] at hc
  split at hc
  · exact Or.inl hc
  · rcases List.mem_append.mp hc with h | h
    · exact Or.inl (List.take_subset _ _ h)
    · exact Or.inr (List.eq_of_mem_replicate h)

theorem pcenWordB_chars (w : List Char) : ∀ c ∈ pcenWordB w, c ∈ w ∨ c = '*' := by
  intro c hc
  rw [pcenWordB] at hc
  split at hc
  · exact Or.inl hc
  · split at hc
    · rcases List.mem_append.mp hc with h | h
      · exact Or.inl (List.take_subset _ _ h)
      · rcases List.mem_cons.mp h with rfl | h
        · exact Or.inr rfl
        · exact Or.inl (List.drop_subset _ _ h)
    · dsimp only at hc
      rcases List.mem_map.mp hc with ⟨p, hp, heq⟩
      by_cases hcond : p.1 = 0 ∨ p.1 = w.length - 2
      · rw [if_pos hcond] at heq
        subst heq
        exact Or.inl (List.get?_mem (List.mem_enum_iff_get?.mp hp))
      · rw [if_neg hcond] at heq
        exact Or.inr heq.symm

theorem pcenWordA_nospace {w : List Char} (h : ∀ c ∈ w, c ≠ ' ') :
    ∀ c ∈ pcenWordA w, c ≠ ' ' := by
  intro c hc
  rcases pcenWordA_chars w c hc with hcw | rfl
  · exact h c hcw
  · decide

theorem pcenWordB_nospace {w : List Char} (h : ∀ c ∈ w, c ≠ ' ') :
    ∀ c ∈ pcenWordB w, c ≠ ' ' := by
  intro c hc
  rcases pcenWordB_chars w c hc with hcw | rfl
  · exact h c hcw
  · decide

/-- The space skeleton of the input survives
`split(' ') → map f → join(' ')` whenever `f` is word-length-preserving
and introduces no spaces: empty words between consecutive spaces map to
empty words, so runs of spaces are reproduced exactly. -/
theorem spaceMask_joinSp_map (f : List Char → List Char)
    (hlen : ∀ w, (f w).length = w.length)
    (hsp : ∀ w, (∀ c ∈ w, c ≠ ' ') → ∀ c ∈ f w, c ≠ ' ') :
    ∀ l : List Char, spaceMask (joinSp ((splitSp l).map f)) = spaceMask l := by
  intro l
  induction l with
  | nil =>
    have hf : f [] = [] := List.length_eq_zero.mp (by rw [hlen]; rfl)
    simp [splitSp, joinSp, hf]
  | cons c cs ih =>
    by_cases hc : c = ' '
    · subst hc
      rw [show splitSp (' ' :: cs) = [] :: splitSp cs from by simp [splitSp]]
      have hf : f [] = [] := List.length_eq_zero.mp (by rw [hlen]; rfl)
      rcases hx : splitSp cs with _ | ⟨w0, ws⟩
      · exact absurd hx (splitSp_ne_nil cs)
      · rw [hx] at ih
        simp only [List.map_cons, joinSp, hf, List.nil_append] at ih ⊢
        rw [spaceMask_cons, ih, spaceMask_cons]
    · rcases hx : splitSp cs with _ | ⟨w0, ws⟩
      · exact absurd hx (splitSp_ne_nil cs)
      · rw [show splitSp (c :: cs) = (c :: w0) :: ws from by simp [splitSp, hc, hx]]
        rw [hx] at ih
        have hw0 : ∀ x ∈ w0, x ≠ ' ' :=
          splitSp_words cs w0 (by rw [hx]; exact List.mem_cons_self _ _)
        have hcw : ∀ x ∈ c :: w0, x ≠ ' ' := by
          intro x hx'
          rcases List.mem_cons.mp hx' with rfl | h
          · exact hc
          · exact hw0 x h
        have hm1 : spaceMask (f (c :: w0)) = List.replicate (w0.length + 1) false := by
          rw [spaceMask_allfalse (hsp _ hcw), hlen]
          simp
        have hm0 : spaceMask (f w0) = List.replicate w0.length false := by
          rw [spaceMask_allfalse (hsp _ hw0), hlen]
        have hcb : (c == ' ') = false := by simp [hc]
        cases ws with
        | nil =>
          simp only [List.map_cons, List.map_nil, joinSp] at ih ⊢
          rw [hm1, spaceMask_cons, hcb, ← ih, hm0, List.replicate_succ]
        | cons w1 ws' =>
          simp only [List.map_cons, joinSp] at ih ⊢
          rw [show spaceMask (c :: cs) = (c == ' ') :: spaceMask cs from rfl, hcb, ← ih]
          rw [spaceMask_append, spaceMask_append, hm0, hm1, List.replicate_succ]
          simp [List.cons_append]

theorem splitSp_length_mask :
    ∀ l : List Char, (splitSp l).length = (spaceMask l).count true + 1 := by
  intro l
  induction l with
  | nil => rfl
  | cons c cs ih =>
    by_cases hc : c = ' '
    · rw [show splitSp (c :: cs) = [] :: splitSp cs from by simp [splitSp, hc],
        spaceMask_cons]
      simp [hc, List.count_cons, ih]
    · rcases hx : splitSp cs with _ | ⟨w0, ws⟩
      · exact absurd hx (splitSp_ne_nil cs)
      · rw [show splitSp (c :: cs) = (c :: w0) :: ws from by simp [splitSp, hc, hx],
          spaceMask_cons]
        have hcb : (c == ' ') = false := by simp [hc]
        rw [hcb]
        have h2 := ih
        rw [hx] at h2
        simp only [List.length_cons] at h2 ⊢
        simp only [List.count_cons]
        simp
        omega

/-- C8 counterexample: the input `"hi  there"` contains a run of two
spaces, and the PCensor transform (current variant) maps it to
`"hi  t**r*"` — the two-space run is reproduced exactly, so the original
inter-word spacing width IS preserved, contradicting the claim. -/
theorem c8_counterexample :
    pcensorB "hi  there".toList = "hi  t**r*".toList ∧
    spaceMask (pcensorB "hi  there".toList) = spaceMask "hi  there".toList ∧
    "hi  there".toList.count ' ' = 2 :=
  ⟨by decide, by decide, by decide⟩

/-- C8 amended: the PCensor transform operates on each word of the
single-space split independently and rejoins with single spaces, and as a
consequence the inter-word spacing IS preserved exactly (in both
variants): each empty word arising between consecutive spaces is below
the length threshold and passes through unchanged, so the output has a
space at a position exactly when the input does. -/
theorem c8_pcensor_spacing_amended :
    ∀ p1 : List Char,
      spaceMask (pcensorA p1) = spaceMask p1 ∧
      spaceMask (pcensorB p1) = spaceMask p1 := by
  intro p1
  exact
    ⟨spaceMask_joinSp_map pcenWordA pcenWordA_length
      (fun w h => pcenWordA_nospace h) p1,
     spaceMask_joinSp_map pcenWordB pcenWordB_length
      (fun w h => pcenWordB_nospace h) p1⟩

/-- C10: both PCensor word transforms are length-preserving — the
transformed word has exactly as many characters as the original, every
output character is an original character or `'*'` — and consequently the
whole PCensor output has the same total length and the same word count
(single-space split) as its input, in both variants. -/
theorem c10_pcensor_length_preserving :
    (∀ w : List Char, (pcenWordA w).length = w.length ∧
      (pcenWordB w).length = w.length) ∧
    (∀ w : List Char, ∀ c ∈ pcenWordA w, c ∈ w ∨ c = '*') ∧
    (∀ w : List Char, ∀ c ∈ pcenWordB w, c ∈ w ∨ c = '*') ∧
    (∀ p1 : List Char, (pcensorA p1).length = p1.length ∧
      (pcensorB p1).length = p1.length) ∧
    (∀ p1 : List Char, (splitSp (pcensorA p1)).length = (splitSp p1).length ∧
      (splitSp (pcensorB p1)).length = (splitSp p1).length) := by
  have hmaskA : ∀ p1 : List Char, spaceMask (pcensorA p1) = spaceMask p1 :=
    fun p1 => spaceMask_joinSp_map pcenWordA pcenWordA_length
      (fun w h => pcenWordA_nospace h) p1
  have hmaskB : ∀ p1 : List Char, spaceMask (pcensorB p1) = spaceMask p1 :=
    fun p1 => spaceMask_joinSp_map pcenWordB pcenWordB_length
      (fun w h => pcenWordB_nospace h) p1
  refine ⟨fun w => ⟨pcenWordA_length w, pcenWordB_length w⟩,
    pcenWordA_chars, pcenWordB_chars, ?_, ?_⟩
  · intro p1
    constructor
    · have h := congrArg List.length (hmaskA p1)
      simpa [spaceMask, List.length_map] using h
    · have h := congrArg List.length (hmaskB p1)
      simpa [spaceMask, List.length_map] using h
  · intro p1
    constructor
    · rw [splitSp_length_mask, splitSp_length_mask, hmaskA p1]
    · rw [splitSp_length_mask, splitSp_length_mask, hmaskB p1]

/-! ### Lemmas for the glitch transform -/

theorem poolChar_ne_space (r : ℚ) : poolChar r ≠ ' ' := by
  have hall : ∀ c ∈ glitchPool, c ≠ ' ' := by decide
  rw [poolChar, List.getD_eq_getElem?_getD]
  rcases hg : glitchPool[randFloor r glitchPool.length]? with _ | c
  · decide
  · simp only [Option.getD_some]
    exact hall c (List.get?_mem (by rw [List.get?_eq_getElem?]; exact hg))

theorem slotCount_cons_space (l : List GlitchSlot) :
    slotCount (GlitchSlot.space :: l) = slotCount l := by
  simp [slotCount, List.countP_cons]

theorem slotCount_cons_char (d : Char) (f : Option String) (s : ℚ)
    (l : List GlitchSlot) :
    slotCount (GlitchSlot.char d f s :: l) = slotCount l + 1 := by
  simp [slotCount, List.countP_cons]

theorem randFloor_lt {r : ℚ} (_h0 : 0 ≤ r) (h1 : r < 1) {k : ℕ} (hk : 0 < k) :
    randFloor r k < k := by
  rw [randFloor]
  have hfl : (r * (k : ℚ)).floor = ⌊r * (k : ℚ)⌋ := by
    rw [Rat.floor_def', Rat.floor_def]
  rw [hfl]
  have hklt : (0 : ℚ) < (k : ℚ) := by exact_mod_cast hk
  have hlt : r * (k : ℚ) < (k : ℚ) := by nlinarith
  have h2 : ⌊r * (k : ℚ)⌋ < (k : ℤ) := by
    rw [Int.floor_lt]
    exact_mod_cast hlt
  omega

theorem slotCount_glitchSlots (rand : ℕ → ℚ) (fonts : List String) (speed : ℚ) :
    ∀ (i : ℕ) (text : List Char),
      slotCount (glitchSlots rand fonts speed i text) =
        text.countP (fun c => !(c == ' ')) := by
  intro i text
  induction text generalizing i with
  | nil => rfl
  | cons c cs ih =>
    by_cases hc : c = ' '
    · rw [show glitchSlots rand fonts speed i (c :: cs) =
          GlitchSlot.space :: glitchSlots rand fonts speed i cs from by
        simp [glitchSlots, hc]]
      rw [slotCount_cons_space, ih i, List.countP_cons]
      simp [hc]
    · by_cases hf : fonts.isEmpty
      · rw [show glitchSlots rand fonts speed i (c :: cs) =
            GlitchSlot.char (poolChar (rand i)) none speed ::
              glitchSlots rand fonts speed (i + 1) cs from by
          simp [glitchSlots, hc, hf]]
        rw [slotCount_cons_char, ih (i + 1), List.countP_cons]
        simp [hc]
      · rw [show glitchSlots rand fonts speed i (c :: cs) =
            GlitchSlot.char (poolChar (rand i))
              (some (fontPick fonts (rand (i + 1)))) speed ::
              glitchSlots rand fonts speed (i + 2) cs from by
          simp [glitchSlots, hc, hf]]
        rw [slotCount_cons_char, ih (i + 2), List.countP_cons]
        simp [hc]

theorem slotCount_gen (rand : ℕ → ℚ) (fonts : List String) (speed : ℚ)
    (i j0 len : ℕ) :
    slotCount (glitchSlots rand fonts speed i
      ((List.range len).map (fun j => poolChar (rand (j0 + j))))) = len := by
  rw [slotCount_glitchSlots]
  have hall : ∀ a ∈ (List.range len).map (fun j => poolChar (rand (j0 + j))),
      (!(a == ' ')) = true := by
    intro a ha
    rcases List.mem_map.mp ha with ⟨j, hj, rfl⟩
    simp [poolChar_ne_space]
  rw [List.countP_eq_length.mpr hall, List.length_map, List.length_range]

theorem randFloor_zero (k : ℕ) : randFloor 0 k = 0 := by
  simp [randFloor, Rat.floor_def']

/-- C6 counterexample: a glitch tag enclosing whitespace-only text
renders a freshly generated replacement (3 slots under the all-zero
random stream), not one slot per enclosed character.  Three spaces give
0 non-space slots in the enclosed text but 3 in the output; a single
no-break space (U+00A0, removed by JS `trim` but not equal to `' '` in
the per-character rule) gives 1 non-space slot in the enclosed text but
again 3 in the output. -/
theorem c6_counterexample :
    slotCount (glitchTagReplace rand0 0 [] 5 [' ', ' ', ' ']) = 3 ∧
    ([' ', ' ', ' '] : List Char).countP (fun c => !(c == ' ')) = 0 ∧
    slotCount (glitchTagReplace rand0 0 [] 5 ['\u00A0']) = 3 ∧
    (['\u00A0'] : List Char).countP (fun c => !(c == ' ')) = 1 := by
  refine ⟨?_, by decide, ?_, by decide⟩
  · rw [glitchTagReplace, renderGlitchText]
    have hcond : (([' ', ' ', ' '] : List Char).isEmpty ||
        ([' ', ' ', ' '] : List Char).all jsIsWhite) = true := by decide
    simp only [hcond, if_true, rand0, randFloor_zero]
    exact slotCount_gen rand0 [] _ _ 1 3
  · rw [glitchTagReplace, renderGlitchText]
    have hcond : ((['\u00A0'] : List Char).isEmpty ||
        (['\u00A0'] : List Char).all jsIsWhite) = true := by decide
    simp only [hcond, if_true, rand0, randFloor_zero]
    exact slotCount_gen rand0 [] _ _ 1 3

/-- C6 amended: for every glitch tag enclosing at least one
non-whitespace character, the output has exactly one wrapped slot per
non-space character of the enclosed text (spaces pass through); for an
empty, whitespace-only or self-closed glitch tag, the generated
replacement text — and hence the output slot count — has length in
`[3,7]`, drawn from the fixed pool. -/
theorem c6_glitch_slot_count_amended :
    (∀ (rand : ℕ → ℚ) (fonts : List String) (i0 n : ℕ) (text : List Char),
      (∃ c ∈ text, jsIsWhite c = false) →
      slotCount (glitchTagReplace rand i0 fonts n text) =
        text.countP (fun c => !(c == ' '))) ∧
    (∀ (rand : ℕ → ℚ) (fonts : List String) (i0 n : ℕ) (text : List Char),
      (∀ k, 0 ≤ rand k ∧ rand k < 1) →
      (text = [] ∨ text.all jsIsWhite = true) →
      3 ≤ slotCount (glitchTagReplace rand i0 fonts n text) ∧
      slotCount (glitchTagReplace rand i0 fonts n text) ≤ 7) := by
  constructor
  · intro rand fonts i0 n text hex
    obtain ⟨c, hc, hcw⟩ := hex
    have hne : text.isEmpty = false := by
      cases text with
      | nil => cases hc
      | cons a l => rfl
    have hall : text.all jsIsWhite = false := by
      cases hb : text.all jsIsWhite with
      | false => rfl
      | true => exact absurd (List.all_eq_true.mp hb c hc) (by simp [hcw])
    rw [glitchTagReplace, renderGlitchText]
    simp only [hne, hall, Bool.or_self, Bool.or_false, if_false]
    exact slotCount_glitchSlots rand fonts _ i0 text
  · intro rand fonts i0 n text hr hcond
    have hcondb : (text.isEmpty || text.all jsIsWhite) = true := by
      rcases hcond with rfl | h
      · simp
      · simp [h]
    rw [glitchTagReplace, renderGlitchText]
    simp only [hcondb, if_true]
    rw [slotCount_gen rand fonts _ _ (i0 + 1) (randFloor (rand i0) 5 + 3)]
    have h5 : randFloor (rand i0) 5 < 5 :=
      randFloor_lt (hr i0).1 (hr i0).2 (by norm_num)
    omega

/-- C6 witness: the amended theorem at concrete inputs — a glitch tag
enclosing `"h"` yields one slot; a self-closed tag under the all-zero
random stream yields between 3 and 7 slots. -/
theorem c6_glitch_slot_count_amended_witness :
    slotCount (glitchTagReplace rand0 0 [] 5 ['h']) =
      (['h'] : List Char).countP (fun c => !(c == ' ')) ∧
    3 ≤ slotCount (glitchTagReplace rand0 0 [] 5 []) ∧
    slotCount (glitchTagReplace rand0 0 [] 5 []) ≤ 7 :=
  ⟨c6_glitch_slot_count_amended.1 rand0 [] 0 5 ['h'] ⟨'h', by decide, by decide⟩,
   (c6_glitch_slot_count_amended.2 rand0 [] 0 5 []
      (fun k => ⟨le_refl 0, by norm_num [rand0]⟩) (Or.inl rfl)).1,
   (c6_glitch_slot_count_amended.2 rand0 [] 0 5 []
      (fun k => ⟨le_refl 0, by norm_num [rand0]⟩) (Or.inl rfl)).2⟩
